import Mathlib

/-!
Verification of the RouteDns repository (a programmable DNS stub resolver and
router).  The definitions below are a shallow embedding of the Go source:
IP addresses are lists of byte values (`List Nat`, a Go `nil` slice is `[]`),
bit strings are `List Bool`, DNS messages are a structure carrying the fields
the verified code inspects, and every fallible or stateful operation is an
explicit function on these values.  Each definition names the Go function it
embeds.
-/

namespace RouteDns

/-- Go `net.IP`: a byte slice; the nil slice is the empty list. -/
abbrev IP := List Nat

/-- Go `IP.To4` (net/ip.go): returns the 4-byte form of an IPv4 address,
either already 4 bytes long or a 16-byte IPv4-mapped address
(10 zero bytes, then 0xff 0xff, then the 4 address bytes); nil otherwise. -/
def to4 (ip : IP) : Option IP :=
  if ip.length = 4 then some ip
  else if ip.length = 16 ∧ ip.take 12 = [0, 0, 0, 0, 0, 0, 0, 0, 0, 0, 0xff, 0xff] then
    some (ip.drop 12)
  else none

/-- Number of mask bits that fall into byte `i` of an address masked to
width `p` (Go `net.CIDRMask`): byte `i` keeps `min 8 (p - 8*i)` top bits. -/
def byteMaskBits (p i : Nat) : Nat :=
  min 8 (p - 8 * i)

/-- One byte masked to its top `bits` bits (Go `ip & mask` per byte). -/
def maskByte (b bits : Nat) : Nat :=
  b / 2 ^ (8 - bits) * 2 ^ (8 - bits)

/-- Go `ip.Mask(net.CIDRMask(p, 8*len(ip)))`: keep the top `p` bits. -/
def maskBits (ip : IP) (p : Nat) : IP :=
  (List.zip ip (List.range ip.length)).map fun bi => maskByte bi.1 (byteMaskBits p bi.2)

/-- EDNS(0) options as they appear in the embedded code.  Option code 8 is
client-subnet (ECS), 11 is edns-tcp-keepalive. -/
inductive EDNSOpt where
  | subnet (family : Nat) (sourceNetmask : Nat) (sourceScope : Nat) (address : IP)
  | tcpKeepalive
  | otherOpt (code : Nat)
deriving DecidableEq, Repr

/-- Option code of an EDNS(0) option (Go `opt.Option()`). -/
def EDNSOpt.code : EDNSOpt → Nat
  | .subnet _ _ _ _ => 8
  | .tcpKeepalive => 11
  | .otherOpt c => c

/-- Is this option a `dns.EDNS0_SUBNET`? (the type switch in the Go code). -/
def EDNSOpt.isSubnet : EDNSOpt → Bool
  | .subnet _ _ _ _ => true
  | _ => false

/-- The OPT pseudo-record of a message (`dns.Msg.IsEdns0`). -/
structure OptRecord where
  udpSize : Nat
  options : List EDNSOpt
deriving DecidableEq, Repr

/-- A DNS question (`dns.Question`).  Qtype 1 = A, 12 = PTR, 28 = AAAA. -/
structure Question where
  name : String
  qtype : Nat
  qclass : Nat
deriving DecidableEq, Repr

/-- A resource record, restricted to the record types the embedded code
builds or inspects (`dns.A`, `dns.AAAA`, `dns.PTR`). -/
inductive RR where
  | a (name : String) (qclass ttl : Nat) (address : IP)
  | aaaa (name : String) (qclass ttl : Nat) (address : IP)
  | ptrRec (name : String) (target : String)
deriving DecidableEq, Repr

/-- The part of `dns.Msg` the embedded code reads and writes. -/
structure Msg where
  question : List Question
  rcode : Nat
  response : Bool
  answer : List RR
  edns0 : Option OptRecord
deriving DecidableEq, Repr

/-- Rcode constants from the `dns` package. -/
def RcodeSuccess : Nat := 0
def RcodeServerFailure : Nat := 2
def RcodeNameError : Nat := 3
def RcodeRefused : Nat := 5

/-- Per-request client metadata (`ClientInfo`). -/
structure ClientInfo where
  listener : String
  sourceIP : IP
  tlsServerName : String
deriving DecidableEq, Repr

/-- Go `dns.Msg.SetReply`: a fresh reply to `q` with Rcode success. -/
def setReply (q : Msg) : Msg :=
  { question := q.question, rcode := RcodeSuccess, response := true,
    answer := [], edns0 := none }

/-- Go `dns.Msg.SetRcode`: a reply to `q` carrying the given Rcode. -/
def setRcode (q : Msg) (rc : Nat) : Msg :=
  { setReply q with rcode := rc }

/-! ### ACL checks (`dnslistener.go`, `isAllowed` and `listenHandler`) -/

/-- An IP network as Go's `net.IPNet`: a network address and a mask, both
byte slices of the same length (the form `net.ParseCIDR` produces). -/
structure IPNet where
  ipBytes : IP
  maskBytes : IP
deriving DecidableEq, Repr

/-- Go `IPNet.Contains`: convert the argument to 4-byte form if it is an
IPv4 address, compare lengths, then compare all bytes under the mask.
A nil IP (the empty list) never has the length of a real network address. -/
def ipnetContains (n : IPNet) (ip : IP) : Bool :=
  let ip := (to4 ip).getD ip
  if ip.length ≠ n.ipBytes.length then false
  else (List.range ip.length).all fun i =>
    Nat.land (n.ipBytes.getD i 0) (n.maskBytes.getD i 0) =
      Nat.land (ip.getD i 0) (n.maskBytes.getD i 0)

/-- Embeds `isAllowed` (dnslistener.go:205): an empty allowed-net list admits every
source IP; otherwise some configured network must contain it. -/
def isAllowed (allowedNet : List IPNet) (ip : IP) : Bool :=
  if allowedNet.length = 0 then true
  else allowedNet.any fun n => ipnetContains n ip

/-- The ACL decision inside `listenHandler` (dnslistener.go:161-181):
allowed queries are forwarded to the resolver, others get REFUSED. -/
inductive AclAction where
  | forwardToResolver
  | refuse
deriving DecidableEq, Repr

/-- The branch of `listenHandler` that applies `isAllowed`. -/
def listenHandlerAcl (allowedNet : List IPNet) (ip : IP) : AclAction :=
  if isAllowed allowedNet ip then .forwardToResolver else .refuse

/-! ### The CIDR trie (`src/unnamed/part_008`, `ipBlocklistTrie`)

A node holds two child pointers and a leaf mark; a nil pointer is `Trie.nil`.
Addresses and network numbers are bit strings (`List Bool`), obtained from the
byte slices via the source's `bit` function; a network of mask width `w` is
represented by its first `w` bits. -/

inductive Trie where
  | nil : Trie
  | node (left right : Trie) (leaf : Bool) : Trie
deriving DecidableEq, Repr

/-- Embeds `ipBlocklistTrie.add` (part_008:60-89).  The walk starts at the root
(created when nil), follows the bits of the network up to its mask width,
creating missing children, and stops early at an existing leaf; the node it
stops at loses its children and is marked as a leaf.  Walking from a nil
pointer behaves as walking from a freshly created node. -/
def addWalk : Trie → List Bool → Trie
  | _, [] => .node .nil .nil true
  | .nil, b :: rest =>
    if b then .node .nil (addWalk .nil rest) false
    else .node (addWalk .nil rest) .nil false
  | .node l r lf, b :: rest =>
    if lf then .node .nil .nil true
    else if b then .node l (addWalk r rest) false
    else .node (addWalk l rest) r false

/-- The trie built by inserting each network of `L` in order into an
initially empty trie (repeated `ipBlocklistTrie.add`). -/
def buildTrie (L : List (List Bool)) : Trie :=
  L.foldl addWalk .nil

/-- The walk of `ipBlocklistTrie.hasIP` (part_008:92-122) on the bits of an
address: `none` when the walk falls off a nil pointer (no match), and
`some d` when a leaf is found at depth `d`, or the bits run out at a live
node (the source returns `ruleString(ip, i), true` in both cases; the rule
string is the address masked at depth `d`, see `ruleBits`). -/
def findDepth : Trie → List Bool → Option Nat
  | .nil, _ => none
  | .node _ _ _, [] => some 0
  | .node l r lf, b :: rest =>
    if lf then some 0
    else (findDepth (if b then r else l) rest).map (· + 1)

/-- Embeds `ruleString(ip, maskBits)` at the bit level: the address masked at the
match depth, padded with zero bits to its full length. -/
def ruleBits (x : List Bool) (d : Nat) : List Bool :=
  x.take d ++ List.replicate (x.length - d) false

/-- Embeds `ipBlocklistTrie.hasIP`: the pair the source returns, with the rule
string replaced by the masked bit string. -/
def hasIP (t : Trie) (x : List Bool) : List Bool × Bool :=
  match findDepth t x with
  | some d => (ruleBits x d, true)
  | none => ([], false)

/-- Embeds `ipBlocklistTrie.removeNode` (part_008:24-57).  The walk follows the
*full* address bits of the network (`len(n.IP)*8` in `remove`), unmarks a
leaf found when the bits run out, and on the way back removes every node
that is a marked leaf with no children. -/
def removeNode : Trie → List Bool → Trie
  | .nil, _ => .nil
  | .node l r lf, [] =>
    if lf then (if l = .nil ∧ r = .nil then .nil else .node l r false)
    else .node l r lf
  | .node l r lf, b :: rest =>
    let l' := if b then l else removeNode l rest
    let r' := if b then removeNode r rest else r
    if lf ∧ l' = .nil ∧ r' = .nil then .nil else .node l' r' lf

/-- Network `p` covers `x`: the network bits `p` are an initial segment of the
address bits `x`. -/
def covers (p x : List Bool) : Prop :=
  x.take p.length = p

instance (p x : List Bool) : Decidable (covers p x) := by
  unfold covers; infer_instance

/-- Leaf flag of the root node (nil reads as false). -/
def Trie.leafB : Trie → Bool
  | .nil => false
  | .node _ _ lf => lf

/-- Source-faithful ordering of an option of depths as produced by
sequences of insertions: the minimum of two optional depths. -/
def omin : Option Nat → Option Nat → Option Nat
  | none, b => b
  | some a, none => some a
  | some a, some b => some (min a b)

/-! ### PanelRotate (`src/unnamed/part_004`, `PanelRotate.Resolve`)

The query is dispatched to all panel resolvers; their `(answer, error)`
results arrive over a buffered channel in some order.  The receive loop is
embedded as a recursion over that arrival sequence. -/

/-- One `(a, err)` pair delivered on the response channel; a dropped
response is `none`. -/
structure PRResp where
  answer : Option Msg
  err : Option String
deriving DecidableEq, Repr

/-- The success test of the receive loop (part_004:54):
`err == nil && (a == nil || a.Rcode != dns.RcodeServerFailure)`. -/
def prSuccess (resp : PRResp) : Bool :=
  resp.err = none ∧ (resp.answer = none ∨ resp.answer.map Msg.rcode ≠ some RcodeServerFailure)

/-- The receive loop of `PanelRotate.Resolve` (part_004:51-65): return the
first successful response; count failures and return the `n`-th failure when
every resolver failed.  `n` is `len(r.PanelResolvers)`. -/
def prLoop (n : Nat) : Nat → List PRResp → PRResp
  | _, [] => ⟨none, none⟩
  | i, resp :: rest =>
    if prSuccess resp then resp
    else if i + 1 ≥ n then resp
    else prLoop n (i + 1) rest

/-- Embeds `PanelRotate.Resolve` as a function of the arrival order of the panel
resolvers' responses. -/
def panelRotateResolve (n : Nat) (arrivals : List PRResp) : PRResp :=
  prLoop n 0 arrivals

/-! ### Panel topology preflight (`src/unnamed/part_005:438-459`,
`GetPanelManager`)

While adding the configured groups to the DAG, ids of groups of type
`blocklist-panel` are collected into `pgm` and ids of type `panel-rotate`
into `pm`; afterwards the two counts are checked. -/

/-- A configured group as far as the preflight check reads it. -/
structure GroupCfg where
  id : String
  type : String
deriving DecidableEq, Repr

/-- The collected `pgm` list (ids of `blocklist-panel` groups). -/
def pgmIds (groups : List GroupCfg) : List String :=
  (groups.filter fun g => g.type = "blocklist-panel").map GroupCfg.id

/-- The collected `pm` list (ids of `panel-rotate` groups). -/
def pmIds (groups : List GroupCfg) : List String :=
  (groups.filter fun g => g.type = "panel-rotate").map GroupCfg.id

/-- The preflight conditional (part_005:455-459): with at least one
`blocklist-panel`, zero `panel-rotate` groups or more than one fail the
build with an error message. -/
def panelTopologyCheck (groups : List GroupCfg) : Option String :=
  if (pgmIds groups).length > 0 ∧ (pmIds groups).length = 0 then
    some "blocklist-panel found but panel-rotate not found"
  else if (pgmIds groups).length > 0 ∧ (pmIds groups).length > 1 then
    some "currently only one panel-rotate is supported"
  else none

/-- The skeleton of `GetPanelManager` around the preflight check: the steps
before the check (argument validation, working directory, vertex insertion)
either fail with an error or succeed; when they succeed the check runs, and
only if it passes does the build continue to produce a `Manager` (abstracted
as the remaining computation's result). -/
def getPanelManager (preError : Option String) (groups : List GroupCfg)
    (rest : Except String Unit) : Except String Unit :=
  match preError with
  | some e => .error e
  | none =>
    match panelTopologyCheck groups with
    | some e => .error e
    | none => rest

/-! ### ECS modifiers (`src/blocklist-panel.go:496-568`) -/

/-- Embeds `ECSModifierDelete`: filter every `dns.EDNS0_SUBNET` option out of the
OPT record, leaving other options in place; no-op without EDNS(0). -/
def ecsModifierDelete (q : Msg) : Msg :=
  match q.edns0 with
  | none => q
  | some o => { q with edns0 := some { o with options := o.options.filter fun opt => !opt.isSubnet } }

/-- Go `dns.Msg.SetEdns0(size, false)` as used at blocklist-panel.go:550: attach
a fresh OPT record advertising the given UDP size (only called when the
query has none). -/
def setEdns0 (q : Msg) (size : Nat) : Msg :=
  { q with edns0 := some ⟨size, []⟩ }

/-- Go `edns0.Option = append(edns0.Option, ecs)`: append one option to the
OPT record (the add path guarantees the record exists). -/
def appendOption (q : Msg) (e : EDNSOpt) : Msg :=
  match q.edns0 with
  | none => q
  | some o => { q with edns0 := some { o with options := o.options ++ [e] } }

/-- Embeds `ECSModifierAdd(addr, prefix4, prefix6)` applied to a query
(blocklist-panel.go:520-568): drop existing ECS options, pick the
configured address or the client source IP, classify it as IPv4/IPv6,
mask it to the configured width (faithful for widths up to the address
size), create an OPT record when absent, and append the new ECS option
with SourceScope 0. -/
def ecsModifierAdd (addr : Option IP) (prefix4 prefix6 : Nat) (q : Msg) (ci : ClientInfo) : Msg :=
  let q := ecsModifierDelete q
  let sourceIP := addr.getD ci.sourceIP
  let fms : Nat × Nat × IP :=
    match to4 sourceIP with
    | some ip4 => (1, prefix4, maskBits ip4 prefix4)
    | none => (2, prefix6, maskBits sourceIP prefix6)
  let q := if q.edns0.isSome then q else setEdns0 q 4096
  appendOption q (.subnet fms.1 fms.2.1 0 fms.2.2)

/-! ### DoQ stream handling (`src/unnamed/part_001:225-297`,
`DoQListener.handleStream`)

The embedding starts after the query has been read and decoded (the claim
conditions on the decoded query); packing is an abstract encoder passed in,
and the result records whether the resolver was invoked and which bytes, if
any, were written to the stream. -/

/-- Outcome of one DoQ stream: was `s.r.Resolve` called, and what bytes went
out on the stream. -/
structure StreamResult where
  resolverInvoked : Bool
  written : Option (List Nat)
deriving DecidableEq, Repr

/-- Does the decoded query carry the edns-tcp-keepalive EDNS(0) option
(option code 11, `dns.EDNS0TCPKEEPALIVE`)? -/
def hasKeepalive (q : Msg) : Bool :=
  match q.edns0 with
  | none => false
  | some o => o.options.any fun opt => opt.code = 11

/-- The SERVFAIL answer built when the resolver fails
(`a.SetRcode(q, dns.RcodeServerFailure)`). -/
def servfailMsg (q : Msg) : Msg :=
  setRcode q RcodeServerFailure

/-- The two-byte big-endian length that precedes a DoQ response
(`binary.BigEndian.PutUint16(out, uint16(len(p)))`). -/
def lengthPrefixBytes (len : Nat) : List Nat :=
  [len % 65536 / 256, len % 256]

/-- Embeds `DoQListener.handleStream` from the keepalive check on: abort on a
keepalive option without resolving or writing; otherwise resolve (replacing
an error by SERVFAIL), pack, and write the length-prefixed bytes (nothing
is written when packing fails). -/
def handleStreamQuery (q : Msg) (resolve : Msg → ClientInfo → Option Msg × Option String)
    (pack : Option Msg → Option (List Nat)) (ci : ClientInfo) : StreamResult :=
  if hasKeepalive q then ⟨false, none⟩
  else
    let ae := resolve q ci
    let a : Option Msg :=
      match ae.2 with
      | some _ => some (servfailMsg q)
      | none => ae.1
    match pack a with
    | none => ⟨true, none⟩
    | some p => ⟨true, some (lengthPrefixBytes p.length ++ p)⟩

/-! ### The Panellist resolver (`src/blocklist-panel.go`) -/

/-- Go `BlocklistMatch`: the informational match descriptor. -/
structure BlocklistMatch where
  list : String
  rule : String
deriving DecidableEq, Repr

/-- The payload of a hit in a name-keyed blocklist DB:
`Match(question) → (ip, names, match, ok)`. -/
structure NameMatch where
  ip : IP
  names : List String
  descr : BlocklistMatch
deriving DecidableEq, Repr

/-- A name-keyed matcher DB (`BlocklistDB.Match` restricted to one
question): `none` encodes `ok == false`. -/
abbrev NameDB := Question → Option NameMatch

/-- An IP-keyed matcher DB (`IPBlocklistDB.Match`): always returns a
descriptor plus the hit flag. -/
abbrev IPDB := IP → BlocklistMatch × Bool

/-- A child resolver: `Resolve(q, ci) → (answer, error)`. -/
abbrev ResolveFn := Msg → ClientInfo → Option Msg × Option String

/-- Result of `Panellist.Resolve`: a normal `(answer, error)` return, or a
nil-pointer dereference when a nil resolver is invoked. -/
inductive Outcome where
  | ok (answer : Option Msg) (err : Option String)
  | nilDeref
deriving DecidableEq, Repr

/-- Invoke an optional resolver the way the Go code does through an
interface value: calling a nil resolver dereferences nil. -/
def callResolver (r : Option ResolveFn) (q : Msg) (ci : ClientInfo) : Outcome :=
  match r with
  | none => .nilDeref
  | some f => .ok (f q ci).1 (f q ci).2

/-- Modelled from the spec: the `refused` helper (not under src/; the spec
says a policy denial responds REFUSED), a reply carrying Rcode REFUSED. -/
def refused (q : Msg) : Msg :=
  setRcode q RcodeRefused

/-- Modelled from the spec: the `ptr` helper (not under src/; the spec says
"synthesise a PTR response" from the supplied names), a reply answering the
question with one PTR record per name. -/
def ptrMsg (q : Msg) (names : List String) : Msg :=
  { setReply q with
    answer := names.map fun n => RR.ptrRec ((q.question.headD ⟨"", 0, 0⟩).name) n }

/-- The spoofed-answer construction shared by the allow and block paths
(blocklist-panel.go:120-151 and 183-215): an A answer when the DB-supplied
IP has a 4-byte form and the question is type A, an AAAA answer when the IP
is 16 bytes and the question is type AAAA, otherwise no spoofed answer
(TTL 3600 in both cases). -/
def spoofAnswer (q : Msg) (question : Question) (ip : IP) : Option Msg :=
  if (to4 ip).isSome ∧ question.qtype = 1 then
    some { setReply q with answer := [RR.a question.name question.qclass 3600 ip] }
  else if ip.length = 16 ∧ question.qtype = 28 then
    some { setReply q with answer := [RR.aaaa question.name question.qclass 3600 ip] }
  else none

/-- The configuration of one `Panellist` as `Resolve` reads it: the three
DBs of the `PanelDB` plus the optional alternative resolvers, the default
upstream resolver and the `maxPTRResponses` cap. -/
structure PanellistCfg where
  ipAllowlistDB : Option IPDB
  allowlistDB : Option NameDB
  blocklistDB : NameDB
  ipAllowListResolver : Option ResolveFn
  allowListResolver : Option ResolveFn
  blockListResolver : Option ResolveFn
  resolver : ResolveFn
  maxPTRResponses : Nat

/-- Block-DB section of `Panellist.Resolve` (blocklist-panel.go:157-221):
miss → forward to the default resolver; hit → PTR synthesis (names capped
at `maxPTRResponses`), else the optional block-list-resolver, else a
spoofed A/AAAA answer, else NXDOMAIN. -/
def panellistBlockPath (c : PanellistCfg) (q : Msg) (ci : ClientInfo) (question : Question) :
    Outcome :=
  match c.blocklistDB question with
  | none => .ok (c.resolver q ci).1 (c.resolver q ci).2
  | some nm =>
    if question.qtype = 12 ∧ nm.names.length > 0 then
      .ok (some (ptrMsg q (nm.names.take c.maxPTRResponses))) none
    else
      match c.blockListResolver with
      | some f => .ok (f q ci).1 (f q ci).2
      | none =>
        match spoofAnswer q question nm.ip with
        | some ans => .ok (some ans) none
        | none => .ok (some (setRcode q RcodeNameError)) none

/-- Allowlist section of `Panellist.Resolve` (blocklist-panel.go:111-155):
hit → the optional allow-list-resolver, else a spoofed answer, else forward
to the default resolver; miss → fall through to the block path. -/
def panellistAllowPath (c : PanellistCfg) (q : Msg) (ci : ClientInfo) (question : Question) :
    Outcome :=
  match c.allowlistDB with
  | none => panellistBlockPath c q ci question
  | some db =>
    match db question with
    | none => panellistBlockPath c q ci question
    | some nm =>
      match c.allowListResolver with
      | some f => .ok (f q ci).1 (f q ci).2
      | none =>
        match spoofAnswer q question nm.ip with
        | some ans => .ok (some ans) none
        | none => .ok (c.resolver q ci).1 (c.resolver q ci).2

/-- Embeds `Panellist.Resolve` (blocklist-panel.go:81-221).  The IP-allowlist
section mirrors the source literally: on a miss the code tests
`ipallowlistDB != nil` — which is necessarily true inside this branch — and
therefore always invokes `r.IpAllowListResolver`, reaching the
REFUSED return only in dead code. -/
def panellistResolve (c : PanellistCfg) (q : Msg) (ci : ClientInfo) : Outcome :=
  if q.question.length < 1 then .ok none (some "no question in query")
  else
    let question := q.question.headD ⟨"", 0, 0⟩
    match c.ipAllowlistDB with
    | some db =>
      if (db ci.sourceIP).2 = false then
        if c.ipAllowlistDB.isSome then callResolver c.ipAllowListResolver q ci
        else .ok (some (refused q)) none
      else panellistAllowPath c q ci question
    | none => panellistAllowPath c q ci question

/-! ### Panel user refresh (`src/blocklist-panel.go:279-307`,
`Panellist.refreshLoop`) -/

/-- One remote panel user; `Passwd` is the identity key written into the IP
allowlist DB. -/
structure UserInfo where
  passwd : String
deriving DecidableEq, Repr

/-- Modelled from the spec: `controller.CompareUserList` (an external XrayR
helper, not under src/; the spec says "compute `(deleted, added)` via set
difference on the user identity key"). -/
def compareUserList (old new : List UserInfo) : List UserInfo × List UserInfo :=
  (old.filter fun u => !new.any fun v => v.passwd = u.passwd,
   new.filter fun v => !old.any fun u => u.passwd = v.passwd)

/-- The argument lists handed to `IpAllowlistDB.Remove` / `.Add` on one
refresh tick; `none` when the call is skipped. -/
structure UserRefreshCalls where
  removeArg : Option (List String)
  addArg : Option (List String)
deriving DecidableEq, Repr

/-- The user-update section of one refresh tick
(blocklist-panel.go:279-306), mirrored literally: `deletedUsers` collects
the `Passwd` of each deleted user, but `addedUsers` is built by iterating
over `deleted` as well (`make([]string, len(deleted)); for i, u := range
deleted { addedUsers[i] = u.Passwd }`). -/
def refreshUserUpdate (old new : List UserInfo) : UserRefreshCalls :=
  let da := compareUserList old new
  { removeArg := if da.1.length > 0 then some (da.1.map UserInfo.passwd) else none,
    addArg := if da.2.length > 0 then some (da.1.map UserInfo.passwd) else none }

/-- The ECS (`dns.EDNS0_SUBNET`) options carried by a query's OPT record. -/
def subnetOptions (q : Msg) : List EDNSOpt :=
  match q.edns0 with
  | none => []
  | some o => o.options.filter EDNSOpt.isSubnet

/-- A trie is well formed for depth budget `k` when every marked leaf has
nil children and every live node at depth `k` is a marked leaf.  Tries built
by insertions of networks no longer than `k` bits satisfy it. -/
def wf : Trie → Nat → Prop
  | .nil, _ => True
  | .node l r lf, 0 => lf = true ∧ l = .nil ∧ r = .nil
  | .node l r lf, k + 1 => (lf = true → l = .nil ∧ r = .nil) ∧ wf l k ∧ wf r k

/-- The per-insertion effect of `addWalk` on the match depth of a fixed
address, folded over a list of inserted networks. -/
def depthFold (L : List (List Bool)) (x : List Bool) (acc : Option Nat) : Option Nat :=
  L.foldl (fun a p => if covers p x then omin a (some p.length) else a) acc

/-! ## Theorems -/

theorem omin_some_zero (o : Option Nat) : omin o (some 0) = some 0 := by
  cases o with
  | none => rfl
  | some a => simp [omin]

theorem omin_map_succ (o : Option Nat) (k : Nat) :
    omin (o.map (· + 1)) (some (k + 1)) = (omin o (some k)).map (· + 1) := by
  cases o with
  | none => rfl
  | some a => simp [omin, Nat.succ_min_succ]

theorem covers_nil (x : List Bool) : covers [] x := by
  simp [covers]

theorem covers_cons (b : Bool) (bs : List Bool) (c : Bool) (xs : List Bool) :
    covers (b :: bs) (c :: xs) ↔ c = b ∧ covers bs xs := by
  simp only [covers, List.length_cons, List.take_succ_cons, List.cons.injEq]

theorem not_covers_cons_nil (b : Bool) (bs : List Bool) : ¬ covers (b :: bs) [] := by
  simp [covers]

/-- Insertion step lemma: inserting a network of width within the address
length either leaves the match depth unchanged (when the network does not
cover the address) or lowers it to at most the network's width. -/
theorem findDepth_addWalk (bits : List Bool) (t : Trie) (x : List Bool)
    (h : bits.length ≤ x.length) :
    findDepth (addWalk t bits) x =
      if covers bits x then omin (findDepth t x) (some bits.length) else findDepth t x := by
  induction bits generalizing t x with
  | nil =>
    simp only [covers_nil, if_pos, List.length_nil, omin_some_zero]
    cases x with
    | nil => cases t <;> rfl
    | cons c xs => cases t <;> rfl
  | cons b bs ih =>
    cases x with
    | nil => simp at h
    | cons c xs =>
      have hlen : bs.length ≤ xs.length := by simpa using h
      cases t with
      | nil =>
        cases b <;> cases c <;> by_cases hcov : covers bs xs <;>
          simp [addWalk, findDepth, covers_cons, hcov, ih Trie.nil xs hlen, omin]
      | node l r lf =>
        cases lf with
        | true =>
          by_cases hcov : covers (b :: bs) (c :: xs) <;>
            simp [addWalk, findDepth, hcov, omin]
        | false =>
          cases b <;> cases c <;> by_cases hcov : covers bs xs <;>
            simp [addWalk, findDepth, covers_cons, hcov, ih l xs hlen, ih r xs hlen,
              omin_map_succ]

/-- Building a trie from a list of networks: the match depth of an address
is the fold of the insertion steps. -/
theorem findDepth_foldl (L : List (List Bool)) (x : List Bool) (t : Trie)
    (h : ∀ p ∈ L, p.length ≤ x.length) :
    findDepth (L.foldl addWalk t) x = depthFold L x (findDepth t x) := by
  induction L generalizing t with
  | nil => rfl
  | cons p L ih =>
    simp only [List.foldl_cons, depthFold]
    rw [ih (addWalk t p) fun q hq => h q (List.mem_cons_of_mem _ hq)]
    rw [depthFold, findDepth_addWalk p t x (h p (List.mem_cons_self _ _))]

theorem depthFold_cons (p : List Bool) (L : List (List Bool)) (x : List Bool)
    (acc : Option Nat) :
    depthFold (p :: L) x acc =
      depthFold L x (if covers p x then omin acc (some p.length) else acc) := rfl

theorem omin_isSome (a : Option Nat) (k : Nat) : (omin a (some k)).isSome = true := by
  cases a <;> simp [omin]

theorem depthFold_isSome (L : List (List Bool)) (x : List Bool) (acc : Option Nat) :
    (depthFold L x acc).isSome = true ↔ acc.isSome = true ∨ ∃ p ∈ L, covers p x := by
  induction L generalizing acc with
  | nil => simp [depthFold]
  | cons p L ih =>
    rw [depthFold_cons]
    by_cases hc : covers p x
    · rw [if_pos hc, ih]
      simp [omin_isSome, hc]
    · rw [if_neg hc, ih]
      constructor
      · rintro (ha | ⟨q, hq, hcq⟩)
        · exact .inl ha
        · exact .inr ⟨q, List.mem_cons_of_mem _ hq, hcq⟩
      · rintro (ha | ⟨q, hq, hcq⟩)
        · exact .inl ha
        · rcases List.mem_cons.mp hq with rfl | hq
          · exact absurd hcq hc
          · exact .inr ⟨q, hq, hcq⟩

theorem depthFold_eq_some (L : List (List Bool)) (x : List Bool) (acc : Option Nat)
    (d : Nat) (h : depthFold L x acc = some d) :
    (acc = some d ∨ ∃ p ∈ L, covers p x ∧ p.length = d) ∧
      (∀ a, acc = some a → d ≤ a) ∧ (∀ p ∈ L, covers p x → d ≤ p.length) := by
  induction L generalizing acc with
  | nil =>
    have hacc : acc = some d := by simpa [depthFold] using h
    refine ⟨.inl hacc, fun a ha => ?_, by simp⟩
    rw [hacc] at ha
    exact le_of_eq (Option.some_injective _ ha)
  | cons p L ih =>
    rw [depthFold_cons] at h
    by_cases hc : covers p x
    · rw [if_pos hc] at h
      obtain ⟨h1, h2, h3⟩ := ih _ h
      have hdp : d ≤ p.length := by
        cases acc with
        | none => exact h2 _ rfl
        | some a => exact le_trans (h2 _ rfl) (Nat.min_le_right a p.length)
      refine ⟨?_, fun a ha => ?_, fun q hq hcq => ?_⟩
      · rcases h1 with heq | ⟨q, hq, hcq, hlen⟩
        · cases acc with
          | none =>
            exact .inr ⟨p, List.mem_cons_self _ _, hc, Option.some_injective _ heq⟩
          | some a =>
            have hmin : min a p.length = d := Option.some_injective _ heq
            rcases Nat.le_total a p.length with hle | hle
            · exact .inl (by rw [Nat.min_eq_left hle] at hmin; rw [hmin])
            · exact .inr ⟨p, List.mem_cons_self _ _, hc, by
                rw [Nat.min_eq_right hle] at hmin; exact hmin⟩
        · exact .inr ⟨q, List.mem_cons_of_mem _ hq, hcq, hlen⟩
      · subst ha
        exact le_trans (h2 _ rfl) (Nat.min_le_left _ _)
      · rcases List.mem_cons.mp hq with rfl | hq
        · exact hdp
        · exact h3 q hq hcq
    · rw [if_neg hc] at h
      obtain ⟨h1, h2, h3⟩ := ih _ h
      refine ⟨?_, h2, fun q hq hcq => ?_⟩
      · rcases h1 with heq | ⟨q, hq, hcq, hlen⟩
        · exact .inl heq
        · exact .inr ⟨q, List.mem_cons_of_mem _ hq, hcq, hlen⟩
      · rcases List.mem_cons.mp hq with rfl | hq
        · exact absurd hcq hc
        · exact h3 q hq hcq

theorem wf_nil (k : Nat) : wf .nil k := by
  simp [wf]

theorem wf_leafNode (k : Nat) : wf (.node .nil .nil true) k := by
  cases k with
  | zero => exact ⟨rfl, rfl, rfl⟩
  | succ k => exact ⟨fun _ => ⟨rfl, rfl⟩, wf_nil k, wf_nil k⟩

/-- Insertion preserves well-formedness when the inserted network is no
longer than the budget. -/
theorem wf_addWalk (bits : List Bool) (t : Trie) (k : Nat) (hw : wf t k)
    (h : bits.length ≤ k) : wf (addWalk t bits) k := by
  induction bits generalizing t k with
  | nil =>
    cases t with
    | nil => exact wf_leafNode k
    | node l r lf => exact wf_leafNode k
  | cons b bs ih =>
    cases k with
    | zero => simp at h
    | succ k =>
      have hbk : bs.length ≤ k := by simpa using h
      cases t with
      | nil =>
        cases b with
        | false =>
          exact ⟨by simp [addWalk], ih .nil k (wf_nil k) hbk, wf_nil k⟩
        | true =>
          exact ⟨by simp [addWalk], wf_nil k, ih .nil k (wf_nil k) hbk⟩
      | node l r lf =>
        cases lf with
        | true =>
          have : addWalk (.node l r true) (b :: bs) = .node .nil .nil true := by
            simp [addWalk]
          rw [this]
          exact wf_leafNode (k + 1)
        | false =>
          obtain ⟨_, hwl, hwr⟩ := hw
          cases b with
          | false =>
            exact ⟨by simp [addWalk], ih l k hwl hbk, hwr⟩
          | true =>
            exact ⟨by simp [addWalk], hwl, ih r k hwr hbk⟩

/-- Every trie built from networks no longer than the budget is well
formed. -/
theorem wf_buildTrie (L : List (List Bool)) (k : Nat) (h : ∀ p ∈ L, p.length ≤ k) :
    wf (buildTrie L) k := by
  suffices hgen : ∀ t, wf t k → wf (L.foldl addWalk t) k from hgen .nil (wf_nil k)
  induction L with
  | nil => exact fun t ht => ht
  | cons p L ih =>
    intro t ht
    exact ih (fun q hq => h q (List.mem_cons_of_mem _ hq)) (addWalk t p)
      (wf_addWalk p t k ht (h p (List.mem_cons_self _ _)))

/-- Removal lemma: when the walk of the removal bits `y` meets its first
leaf at depth `k` (in a well-formed trie), every address sharing the first
`k` bits of `y` stops matching, and every other address keeps its exact
match depth. -/
theorem findDepth_removeNode (y : List Bool) (T : Trie) (k : Nat)
    (hwf : wf T y.length) (hfind : findDepth T y = some k) (x : List Bool) :
    (x.take k = y.take k → findDepth (removeNode T y) x = none) ∧
      (x.take k ≠ y.take k → findDepth (removeNode T y) x = findDepth T x) := by
  induction y generalizing T k x with
  | nil =>
    cases T with
    | nil => simp [findDepth] at hfind
    | node l r lf =>
      have hk : k = 0 := by
        have : some 0 = some k := by simpa [findDepth] using hfind
        exact (Option.some_injective _ this).symm
      subst hk
      obtain ⟨hlf, hl, hr⟩ := hwf
      subst hlf; subst hl; subst hr
      refine ⟨fun _ => ?_, fun hx => absurd rfl hx⟩
      simp [removeNode, findDepth]
  | cons b ys ih =>
    cases T with
    | nil => simp [findDepth] at hfind
    | node l r lf =>
      cases lf with
      | true =>
        have hk : k = 0 := by
          have : some 0 = some k := by simpa [findDepth] using hfind
          exact (Option.some_injective _ this).symm
        subst hk
        obtain ⟨hlr, _, _⟩ := hwf
        obtain ⟨hl, hr⟩ := hlr rfl
        subst hl; subst hr
        refine ⟨fun _ => ?_, fun hx => absurd rfl hx⟩
        cases b <;> simp [removeNode, findDepth]
      | false =>
        obtain ⟨_, hwl, hwr⟩ := hwf
        cases b with
        | true =>
          have hfr : ∃ k', findDepth r ys = some k' ∧ k = k' + 1 := by
            cases hfd : findDepth r ys with
            | none => rw [findDepth] at hfind; simp [hfd] at hfind
            | some a =>
              rw [findDepth] at hfind
              simp only [if_pos, if_true, Bool.false_eq_true, if_false, hfd] at hfind
              exact ⟨a, rfl, by simpa using hfind.symm⟩
          obtain ⟨k', hfd, rfl⟩ := hfr
          have hrem : removeNode (.node l r false) (true :: ys) =
              .node l (removeNode r ys) false := by
            simp [removeNode]
          constructor
          · intro hx
            cases x with
            | nil => simp [List.take_succ_cons] at hx
            | cons c xs =>
              simp only [List.take_succ_cons, List.cons.injEq] at hx
              obtain ⟨rfl, hxs⟩ := hx
              rw [hrem, findDepth]
              simp [(ih r k' hwr hfd xs).1 hxs]
          · intro hx
            cases x with
            | nil => rw [hrem]; rfl
            | cons c xs =>
              cases c with
              | false => rw [hrem]; simp [findDepth]
              | true =>
                have hxs : xs.take k' ≠ ys.take k' := by
                  intro hcon
                  exact hx (by simp [List.take_succ_cons, hcon])
                rw [hrem, findDepth, findDepth]
                simp [(ih r k' hwr hfd xs).2 hxs]
        | false =>
          have hfl : ∃ k', findDepth l ys = some k' ∧ k = k' + 1 := by
            cases hfd : findDepth l ys with
            | none => rw [findDepth] at hfind; simp [hfd] at hfind
            | some a =>
              rw [findDepth] at hfind
              simp only [if_pos, if_true, Bool.false_eq_true, if_false, hfd] at hfind
              exact ⟨a, rfl, by simpa using hfind.symm⟩
          obtain ⟨k', hfd, rfl⟩ := hfl
          have hrem : removeNode (.node l r false) (false :: ys) =
              .node (removeNode l ys) r false := by
            simp [removeNode]
          constructor
          · intro hx
            cases x with
            | nil => simp [List.take_succ_cons] at hx
            | cons c xs =>
              simp only [List.take_succ_cons, List.cons.injEq] at hx
              obtain ⟨rfl, hxs⟩ := hx
              rw [hrem, findDepth]
              simp [(ih l k' hwl hfd xs).1 hxs]
          · intro hx
            cases x with
            | nil => rw [hrem]; rfl
            | cons c xs =>
              cases c with
              | true => rw [hrem]; simp [findDepth]
              | false =>
                have hxs : xs.take k' ≠ ys.take k' := by
                  intro hcon
                  exact hx (by simp [List.take_succ_cons, hcon])
                rw [hrem, findDepth, findDepth]
                simp [(ih l k' hwl hfd xs).2 hxs]

theorem findDepth_nil_eq (x : List Bool) : findDepth .nil x = none := by
  cases x <;> rfl

/-- C3: for any sequence of network insertions, `hasIP x` reports a match
iff some inserted network covers `x`, and the reported rule is `x` masked at
the shallowest leaf depth, which is the length of a shortest inserted
network covering `x` (a lower bound on the length of every covering
insertion). -/
theorem trie_hasIP_shortest_cover (L : List (List Bool)) (x : List Bool)
    (h : ∀ p ∈ L, p.length ≤ x.length) :
    ((hasIP (buildTrie L) x).2 = true ↔ ∃ p ∈ L, covers p x) ∧
      ∀ d, findDepth (buildTrie L) x = some d →
        ∃ p ∈ L, covers p x ∧ p.length = d ∧
          hasIP (buildTrie L) x = (p ++ List.replicate (x.length - d) false, true) ∧
          ∀ m ∈ L, covers m x → d ≤ m.length := by
  have hmain : findDepth (buildTrie L) x = depthFold L x none := by
    simpa [buildTrie, findDepth_nil_eq] using findDepth_foldl L x .nil h
  constructor
  · have hsnd : (hasIP (buildTrie L) x).2 = (findDepth (buildTrie L) x).isSome := by
      unfold hasIP
      cases findDepth (buildTrie L) x <;> rfl
    rw [hsnd, hmain]
    have := depthFold_isSome L x none
    simpa using this
  · intro d hd
    have hd' := hd
    rw [hmain] at hd'
    obtain ⟨h1, _, h3⟩ := depthFold_eq_some L x none d hd'
    rcases h1 with heq | ⟨p, hp, hcp, hlen⟩
    · exact absurd heq (by simp)
    · refine ⟨p, hp, hcp, hlen, ?_, h3⟩
      have hrule : ruleBits x d = p ++ List.replicate (x.length - d) false := by
        unfold ruleBits
        rw [← hlen, hcp]
      have hm : hasIP (buildTrie L) x = (ruleBits x d, true) := by
        unfold hasIP
        rw [hd]
      rw [hm, hrule]

/-- C4: removing a network `n` unmarks its leaf: adding `n` to an empty trie
and then removing it leaves a trie matching no address at all, and after
removing `n` from a trie built from any insertion sequence, no address
covered only by `n` is still reported as matched.  Removal walks the full
address bits of the network, i.e. its network number padded with zero
bits. -/
theorem trie_remove_unmarks :
    (∀ (n x : List Bool) (j : Nat), n.length ≤ x.length →
      hasIP (removeNode (addWalk .nil n) (n ++ List.replicate j false)) x = ([], false)) ∧
    ∀ (L : List (List Bool)) (n x : List Bool),
      (∀ p ∈ L, p.length ≤ x.length) → n ∈ L → covers n x →
      (∀ m ∈ L, covers m x → m = n) →
      hasIP (removeNode (buildTrie L)
        (n ++ List.replicate (x.length - n.length) false)) x = ([], false) := by
  constructor
  · intro n x j hnx
    have hyl : n.length ≤ (n ++ List.replicate j false).length := by simp
    have hcovy : covers n (n ++ List.replicate j false) := by
      simp [covers, List.take_left]
    have hT : findDepth (addWalk .nil n) (n ++ List.replicate j false) = some n.length := by
      rw [findDepth_addWalk n .nil _ hyl, if_pos hcovy, findDepth_nil_eq]
      rfl
    have hwf : wf (addWalk .nil n) (n ++ List.replicate j false).length :=
      wf_addWalk n .nil _ (wf_nil _) hyl
    have hrs := findDepth_removeNode (n ++ List.replicate j false) (addWalk .nil n)
      n.length hwf hT x
    by_cases hx : x.take n.length = (n ++ List.replicate j false).take n.length
    · unfold hasIP
      rw [hrs.1 hx]
    · have hnc : ¬ covers n x := by
        intro hc
        apply hx
        rw [hc]
        exact hcovy.symm
      have hnone : findDepth (addWalk .nil n) x = none := by
        rw [findDepth_addWalk n .nil x hnx, if_neg hnc]
        exact findDepth_nil_eq x
      unfold hasIP
      rw [hrs.2 hx, hnone]
  · intro L n x hL hn hcov honly
    have hnx : n.length ≤ x.length := hL n hn
    have hylen : (n ++ List.replicate (x.length - n.length) false).length = x.length := by
      simp
      omega
    have hLy : ∀ p ∈ L, p.length ≤ (n ++ List.replicate (x.length - n.length) false).length := by
      rw [hylen]; exact hL
    have hcovy : covers n (n ++ List.replicate (x.length - n.length) false) := by
      simp [covers, List.take_left]
    have hmain : findDepth (buildTrie L) (n ++ List.replicate (x.length - n.length) false) =
        depthFold L (n ++ List.replicate (x.length - n.length) false) none := by
      simpa [buildTrie, findDepth_nil_eq] using findDepth_foldl L _ .nil hLy
    have hsome : (depthFold L (n ++ List.replicate (x.length - n.length) false) none).isSome =
        true :=
      (depthFold_isSome L _ none).mpr (.inr ⟨n, hn, hcovy⟩)
    obtain ⟨d, hd⟩ := Option.isSome_iff_exists.mp hsome
    obtain ⟨h1, _, h3⟩ := depthFold_eq_some L _ none d hd
    have hdn : d ≤ n.length := h3 n hn hcovy
    rcases h1 with heq | ⟨p, hp, hcp, hlen⟩
    · exact absurd heq (by simp)
    have htake : x.take n.length = (n ++ List.replicate (x.length - n.length) false).take
        n.length := by
      rw [hcov, hcovy]
    subst hlen
    have hpx : covers p x := by
      unfold covers
      calc List.take p.length x = List.take p.length (List.take n.length x) := by
            rw [List.take_take, Nat.min_eq_left hdn]
        _ = List.take p.length
              (List.take n.length (n ++ List.replicate (x.length - n.length) false)) := by
            rw [htake]
        _ = List.take p.length (n ++ List.replicate (x.length - n.length) false) := by
            rw [List.take_take, Nat.min_eq_left hdn]
        _ = p := hcp
    have hpn : p = n := honly p hp hpx
    have hdeq : p.length = n.length := by rw [hpn]
    have hT : findDepth (buildTrie L) (n ++ List.replicate (x.length - n.length) false) =
        some n.length := by
      rw [hmain, hd, hdeq]
    have hwf : wf (buildTrie L) (n ++ List.replicate (x.length - n.length) false).length :=
      wf_buildTrie L _ hLy
    have hrs := findDepth_removeNode (n ++ List.replicate (x.length - n.length) false)
      (buildTrie L) n.length hwf hT x
    unfold hasIP
    rw [hrs.1 htake]

theorem prLoop_first_success (n : Nat) (pre : List PRResp) (s : PRResp) (post : List PRResp)
    (i : Nat) (hpre : ∀ r ∈ pre, prSuccess r = false) (hs : prSuccess s = true)
    (hlen : i + pre.length < n) :
    prLoop n i (pre ++ s :: post) = s := by
  induction pre generalizing i with
  | nil => simp [prLoop, hs]
  | cons r pre ih =>
    have hr : prSuccess r = false := hpre r (List.mem_cons_self _ _)
    have hlt : ¬ i + 1 ≥ n := by
      simp only [List.length_cons] at hlen
      omega
    simp only [List.cons_append, prLoop, hr, Bool.false_eq_true, if_false, if_neg hlt]
    exact ih (i + 1) (fun x hx => hpre x (List.mem_cons_of_mem _ hx))
      (by simp only [List.length_cons] at hlen; omega)

theorem prLoop_all_fail (n : Nat) (l : List PRResp) (i : Nat) (hne : l ≠ [])
    (hfail : ∀ r ∈ l, prSuccess r = false) (hlen : i + l.length = n) :
    prLoop n i l = l.getLast hne := by
  induction l generalizing i with
  | nil => exact absurd rfl hne
  | cons r rest ih =>
    have hr : prSuccess r = false := hfail r (List.mem_cons_self _ _)
    cases rest with
    | nil =>
      have hge : i + 1 ≥ n := by simp only [List.length_cons, List.length_nil] at hlen; omega
      simp [prLoop, hr, hge]
    | cons r2 rest2 =>
      have hlt : ¬ i + 1 ≥ n := by
        simp only [List.length_cons] at hlen
        omega
      have hne2 : r2 :: rest2 ≠ [] := by simp
      have hstep : prLoop n i (r :: r2 :: rest2) =
          if prSuccess r = true then r
          else if i + 1 ≥ n then r
          else prLoop n (i + 1) (r2 :: rest2) := rfl
      rw [hstep, hr]
      simp only [Bool.false_eq_true, if_false, if_neg hlt]
      have hrec := ih (i + 1) hne2 (fun x hx => hfail x (List.mem_cons_of_mem _ hx))
        (by simp only [List.length_cons] at hlen ⊢; omega)
      rw [hrec]
      exact (List.getLast_cons hne2).symm

/-- C9: the first arriving response that carries no error and is not
SERVFAIL is returned, independently of whatever arrives afterwards (the
outstanding requests are abandoned); when every response fails, the last
arriving response is returned. -/
theorem panelRotate_first_success (n : Nat) (arrivals : List PRResp)
    (hlen : arrivals.length = n) :
    (∀ pre s post, arrivals = pre ++ s :: post →
      (∀ r ∈ pre, prSuccess r = false) → prSuccess s = true →
      panelRotateResolve n arrivals = s ∧
        ∀ post2 : List PRResp, panelRotateResolve n (pre ++ s :: post2) = s) ∧
    ((∀ r ∈ arrivals, prSuccess r = false) →
      ∀ hne : arrivals ≠ [], panelRotateResolve n arrivals = arrivals.getLast hne) := by
  constructor
  · intro pre s post harr hpre hs
    have hplen : pre.length < n := by
      rw [harr] at hlen
      simp only [List.length_append, List.length_cons] at hlen
      omega
    constructor
    · rw [harr]
      exact prLoop_first_success n pre s post 0 hpre hs (by omega)
    · intro post2
      exact prLoop_first_success n pre s post2 0 hpre hs (by omega)
  · intro hfail hne
    exact prLoop_all_fail n arrivals 0 hne hfail (by omega)

/-- C9 witness: two panel resolvers, the first arrival is an error, the
second is a clean answer; that answer is returned. -/
theorem panelRotate_witness :
    panelRotateResolve 2
      [⟨none, some "timeout"⟩, ⟨some (setReply ⟨[], 0, false, [], none⟩), none⟩] =
      ⟨some (setReply ⟨[], 0, false, [], none⟩), none⟩ :=
  ((panelRotate_first_success 2
      [⟨none, some "timeout"⟩, ⟨some (setReply ⟨[], 0, false, [], none⟩), none⟩]
      rfl).1
    [⟨none, some "timeout"⟩] ⟨some (setReply ⟨[], 0, false, [], none⟩), none⟩ [] rfl
    (by decide) (by decide)).1

/-- C5: declaring at least one `blocklist-panel` group with a number of
`panel-rotate` groups other than exactly one makes `GetPanelManager` fail
with an error (no `Manager` is produced); without any `blocklist-panel`
group this check never fails the build. -/
theorem panel_topology_enforced (preError : Option String) (groups : List GroupCfg)
    (rest : Except String Unit) :
    ((pgmIds groups).length ≥ 1 → (pmIds groups).length ≠ 1 →
      ∃ e, getPanelManager preError groups rest = .error e) ∧
    ((pgmIds groups).length = 0 → panelTopologyCheck groups = none) := by
  constructor
  · intro hpgm hpm
    cases preError with
    | some e => exact ⟨e, rfl⟩
    | none =>
      have hchk : ∃ e, panelTopologyCheck groups = some e := by
        unfold panelTopologyCheck
        rcases Nat.lt_or_ge (pmIds groups).length 1 with hlt | hge
        · exact ⟨_, by rw [if_pos ⟨by omega, by omega⟩]⟩
        · have hgt : (pmIds groups).length > 1 := by omega
          exact ⟨_, by rw [if_neg (by omega), if_pos ⟨by omega, hgt⟩]⟩
      obtain ⟨e, he⟩ := hchk
      refine ⟨e, ?_⟩
      unfold getPanelManager
      rw [he]
  · intro h0
    unfold panelTopologyCheck
    rw [if_neg (by omega), if_neg (by omega)]

/-- C5 witness: one `blocklist-panel` group and no `panel-rotate` group
fail the build. -/
theorem panel_topology_witness :
    ∃ e, getPanelManager none [⟨"pb", "blocklist-panel"⟩] (.ok ()) = .error e :=
  (panel_topology_enforced none [⟨"pb", "blocklist-panel"⟩] (.ok ())).1 (by decide) (by decide)

/-- C10: with an empty allowed-nets list `isAllowed` admits every source IP
(a nil IP included) and the handler never refuses; the REFUSED branch is
reachable only with at least one configured network. -/
theorem acl_empty_allows_all :
    (∀ ip : IP, isAllowed [] ip = true) ∧
    (∀ ip : IP, listenHandlerAcl [] ip = .forwardToResolver) ∧
    (∀ (nets : List IPNet) (ip : IP), listenHandlerAcl nets ip = .refuse → nets ≠ []) := by
  refine ⟨fun ip => rfl, fun ip => rfl, fun nets ip h hne => ?_⟩
  subst hne
  simp [listenHandlerAcl, isAllowed] at h

/-- C10 witness: a configured network refusing a nil source IP is indeed a
non-empty ACL. -/
theorem acl_empty_witness :
    ([⟨[10, 0, 0, 0], [255, 0, 0, 0]⟩] : List IPNet) ≠ [] :=
  acl_empty_allows_all.2.2 [⟨[10, 0, 0, 0], [255, 0, 0, 0]⟩] [] (by decide)

/-- C8: a decoded DoQ query carrying the edns-tcp-keepalive option aborts
the stream: the resolver is not invoked and no bytes are written. -/
theorem doq_keepalive_aborts (q : Msg)
    (resolve : Msg → ClientInfo → Option Msg × Option String)
    (pack : Option Msg → Option (List Nat)) (ci : ClientInfo)
    (h : hasKeepalive q = true) :
    handleStreamQuery q resolve pack ci = ⟨false, none⟩ := by
  unfold handleStreamQuery
  rw [if_pos h]

/-- C8 witness: a concrete keepalive-carrying query is aborted even though
the resolver and the encoder would both succeed. -/
theorem doq_keepalive_witness :
    handleStreamQuery ⟨[⟨"example.com.", 1, 1⟩], 0, false, [], some ⟨4096, [.tcpKeepalive]⟩⟩
      (fun q _ => (some (setReply q), none)) (fun _ => some [0]) ⟨"l", [], ""⟩ =
      ⟨false, none⟩ :=
  doq_keepalive_aborts _ _ _ _ rfl

/-- C1 (code bug): a client whose source IP misses the configured IP
allowlist DB while no `ip-allow-list-resolver` is configured makes
`Panellist.Resolve` dereference a nil resolver instead of returning the
REFUSED response the dead branch below the faulty
`if ipallowlistDB != nil` test would build. -/
theorem panellist_ipmiss_nil_resolver_bug :
    panellistResolve
      ⟨some (fun _ => (⟨"iplist", ""⟩, false)), none, (fun _ => none), none, none, none,
        (fun q _ => (some (setReply q), none)), 10⟩
      ⟨[⟨"example.com.", 1, 1⟩], 0, false, [], none⟩ ⟨"l1", [192, 168, 0, 1], ""⟩ =
      .nilDeref ∧
    (Outcome.nilDeref ≠
      .ok (some (refused ⟨[⟨"example.com.", 1, 1⟩], 0, false, [], none⟩)) none) := by
  exact ⟨rfl, by simp⟩

/-- C2 (code bug): on a tick that only adds one user, `Add` receives the
empty list instead of the new user's key (the `addedUsers` slice is built
from `deleted`); when one user is replaced by another, `Add` receives the
deleted user's key. -/
theorem refresh_added_from_deleted_bug :
    refreshUserUpdate [] [⟨"key1"⟩] = ⟨none, some []⟩ ∧
    (compareUserList [] [⟨"key1"⟩]).2.map UserInfo.passwd = ["key1"] ∧
    refreshUserUpdate [⟨"olduser"⟩] [⟨"newuser"⟩] = ⟨some ["olduser"], some ["olduser"]⟩ := by
  exact ⟨rfl, rfl, rfl⟩

/-- C3 witness: the networks 1/1 and 10/2 (as bit strings) both cover the
address 101, and the match is reported. -/
theorem trie_hasIP_witness :
    (hasIP (buildTrie [[true], [true, false]]) [true, false, true]).2 = true :=
  ((trie_hasIP_shortest_cover [[true], [true, false]] [true, false, true] (by decide)).1).mpr
    ⟨[true], by decide, by decide⟩

/-- C4 witness: adding the one-bit network 1/1 to an empty trie and
removing it (with its padded address bits) leaves a trie matching
nothing. -/
theorem trie_remove_witness :
    hasIP (removeNode (addWalk .nil [true]) ([true] ++ List.replicate 2 false))
      [true, false, false] = ([], false) :=
  trie_remove_unmarks.1 [true] [true, false, false] 2 (by decide)

theorem panellistAllowPath_miss (c : PanellistCfg) (q : Msg) (ci : ClientInfo)
    (question : Question) (hallow : ∀ db, c.allowlistDB = some db → db question = none) :
    panellistAllowPath c q ci question = panellistBlockPath c q ci question := by
  cases hadb : c.allowlistDB with
  | none => simp only [panellistAllowPath, hadb]
  | some db => simp only [panellistAllowPath, hadb, hallow db hadb]

theorem panellistResolve_reaches_allow (c : PanellistCfg) (q : Msg) (ci : ClientInfo)
    (question : Question) (qrest : List Question) (hqq : q.question = question :: qrest)
    (hip : ∀ db, c.ipAllowlistDB = some db → (db ci.sourceIP).2 = true) :
    panellistResolve c q ci = panellistAllowPath c q ci question := by
  cases hdb : c.ipAllowlistDB with
  | none =>
    simp [panellistResolve, hqq, hdb]
  | some db =>
    simp [panellistResolve, hqq, hdb, hip db hdb]

/-- C6: when a query reaches the block-DB section (IP allowlist passes or is
absent, allowlist misses or is absent) and the block DB hits: a PTR question
with supplied names gets a synthesised PTR response capped at
`maxPTRResponses`; otherwise a configured block-list-resolver is forwarded
to; otherwise a DB-supplied IP matching the qtype (4-byte form for A,
16 bytes for AAAA) is answered with TTL 3600; otherwise NXDOMAIN. -/
theorem panellist_block_behaviour (c : PanellistCfg) (q : Msg) (ci : ClientInfo)
    (question : Question) (qrest : List Question) (nm : NameMatch)
    (hqq : q.question = question :: qrest)
    (hip : ∀ db, c.ipAllowlistDB = some db → (db ci.sourceIP).2 = true)
    (hallow : ∀ db, c.allowlistDB = some db → db question = none)
    (hblock : c.blocklistDB question = some nm) :
    (question.qtype = 12 → nm.names ≠ [] →
      panellistResolve c q ci = .ok (some (ptrMsg q (nm.names.take c.maxPTRResponses))) none ∧
        (ptrMsg q (nm.names.take c.maxPTRResponses)).answer.length ≤ c.maxPTRResponses) ∧
    (∀ f, c.blockListResolver = some f → ¬(question.qtype = 12 ∧ nm.names ≠ []) →
      panellistResolve c q ci = .ok (f q ci).1 (f q ci).2) ∧
    (c.blockListResolver = none → ¬(question.qtype = 12 ∧ nm.names ≠ []) →
      (∀ ans, spoofAnswer q question nm.ip = some ans →
        panellistResolve c q ci = .ok (some ans) none) ∧
      (spoofAnswer q question nm.ip = none →
        panellistResolve c q ci = .ok (some (setRcode q RcodeNameError)) none)) ∧
    ((spoofAnswer q question nm.ip).isSome = true ↔
      ((to4 nm.ip).isSome = true ∧ question.qtype = 1) ∨
        (nm.ip.length = 16 ∧ question.qtype = 28)) ∧
    (∀ ans, spoofAnswer q question nm.ip = some ans →
      ans.answer = [RR.a question.name question.qclass 3600 nm.ip] ∨
        ans.answer = [RR.aaaa question.name question.qclass 3600 nm.ip]) := by
  have hred : panellistResolve c q ci = panellistBlockPath c q ci question := by
    rw [panellistResolve_reaches_allow c q ci question qrest hqq hip,
      panellistAllowPath_miss c q ci question hallow]
  refine ⟨?_, ?_, ?_, ?_, ?_⟩
  · intro h12 hne
    have hpos : nm.names.length > 0 := List.length_pos.mpr hne
    constructor
    · rw [hred]
      simp only [panellistBlockPath, hblock]
      rw [if_pos ⟨h12, hpos⟩]
    · simp only [ptrMsg, List.length_map, List.length_take]
      exact min_le_left _ _
  · intro f hf hn12
    have hcond : ¬(question.qtype = 12 ∧ nm.names.length > 0) := by
      intro hc
      exact hn12 ⟨hc.1, List.length_pos.mp hc.2⟩
    rw [hred]
    simp only [panellistBlockPath, hblock, hf]
    rw [if_neg hcond]
  · intro hf hn12
    have hcond : ¬(question.qtype = 12 ∧ nm.names.length > 0) := by
      intro hc
      exact hn12 ⟨hc.1, List.length_pos.mp hc.2⟩
    constructor
    · intro ans hans
      rw [hred]
      simp only [panellistBlockPath, hblock, hf, hans]
      rw [if_neg hcond]
    · intro hans
      rw [hred]
      simp only [panellistBlockPath, hblock, hf, hans]
      rw [if_neg hcond]
  · unfold spoofAnswer
    by_cases h1 : (to4 nm.ip).isSome = true ∧ question.qtype = 1
    · rw [if_pos h1]
      simp [h1]
    · rw [if_neg h1]
      by_cases h2 : nm.ip.length = 16 ∧ question.qtype = 28
      · rw [if_pos h2]
        simp [h2]
      · rw [if_neg h2]
        simp [h1, h2]
  · intro ans hans
    unfold spoofAnswer at hans
    by_cases h1 : (to4 nm.ip).isSome = true ∧ question.qtype = 1
    · rw [if_pos h1] at hans
      left
      rw [← Option.some_injective _ hans]
    · rw [if_neg h1] at hans
      by_cases h2 : nm.ip.length = 16 ∧ question.qtype = 28
      · rw [if_pos h2] at hans
        right
        rw [← Option.some_injective _ hans]
      · rw [if_neg h2] at hans
        exact absurd hans (by simp)

/-- C6 witness: a PTR question matched by the block DB with one supplied
name is answered with the synthesised PTR response. -/
theorem panellist_block_witness :
    panellistResolve
      ⟨none, none, (fun _ => some ⟨[], ["blocked.example."], ⟨"bl", "rule"⟩⟩), none, none, none,
        (fun q _ => (some (setReply q), none)), 10⟩
      ⟨[⟨"4.3.2.1.in-addr.arpa.", 12, 1⟩], 0, false, [], none⟩ ⟨"l1", [192, 168, 0, 1], ""⟩ =
      .ok (some (ptrMsg ⟨[⟨"4.3.2.1.in-addr.arpa.", 12, 1⟩], 0, false, [], none⟩
        (["blocked.example."].take 10))) none :=
  ((panellist_block_behaviour
      ⟨none, none, (fun _ => some ⟨[], ["blocked.example."], ⟨"bl", "rule"⟩⟩), none, none, none,
        (fun q _ => (some (setReply q), none)), 10⟩
      ⟨[⟨"4.3.2.1.in-addr.arpa.", 12, 1⟩], 0, false, [], none⟩ ⟨"l1", [192, 168, 0, 1], ""⟩
      ⟨"4.3.2.1.in-addr.arpa.", 12, 1⟩ [] ⟨[], ["blocked.example."], ⟨"bl", "rule"⟩⟩
      rfl (fun db h => nomatch h) (fun db h => nomatch h) rfl).1 rfl (by simp)).1

/-- C7: adding ECS for an IPv4 client first drops every pre-existing ECS
option, then appends a single ECS option with Family 1, SourceNetmask `p4`,
SourceScope 0 and the client source IP masked to `p4` bits; a query without
EDNS(0) gets a fresh OPT record (UDP size 4096) carrying just that
option. -/
theorem ecs_add_ipv4 (q : Msg) (ci : ClientInfo) (p4 p6 : Nat) (ip4 : IP)
    (h4 : to4 ci.sourceIP = some ip4) (hp : p4 ≤ 32) :
    subnetOptions (ecsModifierAdd none p4 p6 q ci) =
      [.subnet 1 p4 0 (maskBits ip4 p4)] ∧
    (ecsModifierAdd none p4 p6 q ci).edns0.isSome = true ∧
    (q.edns0 = none →
      (ecsModifierAdd none p4 p6 q ci).edns0 =
        some ⟨4096, [.subnet 1 p4 0 (maskBits ip4 p4)]⟩) := by
  have hfil : ∀ l : List EDNSOpt,
      (l.filter fun opt => !opt.isSubnet).filter EDNSOpt.isSubnet = [] := by
    intro l
    induction l with
    | nil => rfl
    | cons a l ih => cases ha : a.isSubnet <;> simp [List.filter_cons, ha, ih]
  cases hq : q.edns0 with
  | none =>
    have hdel : ecsModifierDelete q = q := by
      unfold ecsModifierDelete
      rw [hq]
    refine ⟨?_, ?_, fun _ => ?_⟩ <;>
      simp [ecsModifierAdd, hdel, hq, h4, setEdns0, appendOption, subnetOptions,
        EDNSOpt.isSubnet]
  | some o =>
    have hdel : ecsModifierDelete q =
        { q with edns0 := some { o with options := o.options.filter fun opt => !opt.isSubnet } } := by
      unfold ecsModifierDelete
      rw [hq]
    refine ⟨?_, ?_, fun hcontra => Option.noConfusion hcontra⟩
    · simp [ecsModifierAdd, hdel, h4, appendOption, subnetOptions, List.filter_append, hfil,
        EDNSOpt.isSubnet]
    · simp [ecsModifierAdd, hdel, h4, appendOption]

/-- C7 witness: a client at 192.168.1.7 with prefix4 = 24 yields exactly one
ECS option for 192.168.1.0/24, and the query had no EDNS(0) before. -/
theorem ecs_add_witness :
    subnetOptions (ecsModifierAdd none 24 64 ⟨[⟨"example.com.", 1, 1⟩], 0, false, [], none⟩
        ⟨"l1", [192, 168, 1, 7], ""⟩) =
      [.subnet 1 24 0 (maskBits [192, 168, 1, 7] 24)] :=
  (ecs_add_ipv4 ⟨[⟨"example.com.", 1, 1⟩], 0, false, [], none⟩ ⟨"l1", [192, 168, 1, 7], ""⟩
    24 64 [192, 168, 1, 7] rfl (by decide)).1

end RouteDns
